import Mathlib

/-!
Verification of the loss-computation utilities of
tensorflow_privacy/privacy/privacy_tests/utils.py.

The python arrays are modelled as Lean lists over the real numbers
(labels as lists of integers, matching the documented integer label
domain), python ValueError exceptions as an explicit error type carried
in Except, and numpy float arithmetic as exact real arithmetic.
-/

namespace TfPrivacy

/-- Kinds of failure surfaced by the module.  Every python ValueError (and
the numpy errors raised from inside the functions) is mapped to the kind
of validation that failed. -/
inductive Err where
  | shapeMismatch
  | labelDomain
  | rangeViolation
  | missingInput
  | unrecognizedLoss
  | emptyReduction
  | incompatibleArray
deriving DecidableEq

/-- The logistic sigmoid, scipy.special.expit. -/
noncomputable def expit (x : ℝ) : ℝ := 1 / (1 + Real.exp (-x))

/-- Softmax of one row, scipy.special.softmax along the last axis
(mathematically equal to exp normalised by the sum of exps). -/
noncomputable def softmax (r : List ℝ) : List ℝ :=
  (r.map Real.exp).map fun x => x / (r.map Real.exp).sum

/-- A prediction array as accepted by log_loss: either a 1-D vector of
shape (N,) or a 2-D matrix of shape (N, C). -/
inductive Pred where
  | vec : List ℝ → Pred
  | mat : List (List ℝ) → Pred

/-- numpy shape[0]: the leading dimension. -/
def Pred.shape0 : Pred → Nat
  | .vec v => v.length
  | .mat m => m.length

/-- numpy size: the total number of entries. -/
def Pred.size : Pred → Nat
  | .vec v => v.length
  | .mat m => (m.map List.length).sum

/-- numpy shape[1] of a rectangular 2-D array (0 when there is no row). -/
def Pred.shape1 : Pred → Nat
  | .vec _ => 0
  | .mat m => ((m.head?).map List.length).getD 0

/-- numpy flatten. -/
def Pred.flatten : Pred → List ℝ
  | .vec v => v
  | .mat m => m.flatten

@[simp] lemma Pred.shape0_vec (v : List ℝ) : (Pred.vec v).shape0 = v.length := rfl

@[simp] lemma Pred.size_vec (v : List ℝ) : (Pred.vec v).size = v.length := rfl

@[simp] lemma Pred.flatten_vec (v : List ℝ) : (Pred.vec v).flatten = v := rfl

@[simp] lemma Pred.shape0_mat (m : List (List ℝ)) : (Pred.mat m).shape0 = m.length := rfl

/-- Per-example cross entropy loss, translated from log_loss.
Order of operations follows the source: shape check, then the
binary/categorical split on pred.size == pred.shape[0]; in either branch
the first use of np.unique(labels) is classes.min(), which raises on an
empty array (modelled by Err.emptyReduction).  The min/max of the sorted
unique values equal the min/max of the label list itself.  The 1-D case
of the categorical branch is unreachable (a 1-D array always has
size = shape[0]); numpy would raise there on pred.shape[1]. -/
noncomputable def log_loss (labels : List ℤ) (pred : Pred) (from_logits : Bool)
    (small_value : ℝ) : Except Err (List ℝ) :=
  if labels.length ≠ pred.shape0 then .error .shapeMismatch
  else if pred.size = pred.shape0 then
    -- Binary logistic loss
    match labels with
    | [] => .error .emptyReduction
    | a :: as =>
      if as.foldl min a < 0 ∨ 1 < as.foldl max a then .error .labelDomain
      else
        let p1 := if from_logits then pred.flatten.map expit else pred.flatten
        .ok (((a :: as).zip p1).map fun lp =>
          -Real.log (max (if lp.1 = 0 then 1 - lp.2 else lp.2) small_value))
  else
    -- Multi-class categorical cross entropy loss
    match pred with
    | .vec _ => .error .incompatibleArray
    | .mat m =>
      match labels with
      | [] => .error .emptyReduction
      | a :: as =>
        if as.foldl min a < 0 ∨ ((Pred.mat m).shape1 : ℤ) ≤ as.foldl max a then
          .error .labelDomain
        else
          let rows := if from_logits then m.map softmax else m
          .ok (((a :: as).zip rows).map fun lr =>
            -Real.log (max (lr.2.getD lr.1.toNat 0) small_value))

/-- Per-example squared loss, translated from squared_loss.
The source is the single numpy expression (y_true - y_pred)**2; numpy
broadcasting of two 1-D arrays succeeds when the lengths agree or one of
them is 1, and otherwise raises a ValueError complaining about the
shapes, modelled as Err.shapeMismatch. -/
noncomputable def squared_loss (y_true : List ℝ) (y_pred : List ℝ) :
    Except Err (List ℝ) :=
  if y_true.length = y_pred.length then
    .ok (List.zipWith (fun a b => (a - b) ^ 2) y_true y_pred)
  else if y_true.length = 1 then
    .ok (y_pred.map fun b => (y_true.headI - b) ^ 2)
  else if y_pred.length = 1 then
    .ok (y_true.map fun a => (a - y_pred.headI) ^ 2)
  else .error .shapeMismatch

/-- Per-multi-label-example cross entropy loss, translated from
multilabel_bce_loss.  The informational logging about one-hot looking
labels has no effect on the result and is omitted. -/
noncomputable def multilabel_bce_loss (labels : List (List ℤ))
    (pred : List (List ℝ)) (from_logits : Bool) (small_value : ℝ) :
    Except Err (List (List ℝ)) :=
  if labels.length ≠ pred.length then .error .shapeMismatch
  else if ¬ (∀ r ∈ labels, ∀ l ∈ r, l = 0 ∨ l = 1) then .error .labelDomain
  else if from_logits = false ∧ (∃ r ∈ pred, ∃ p ∈ r, p < 0 ∨ 1 < p) then
    .error .rangeViolation
  else
    let pred1 := if from_logits then pred.map (List.map expit) else pred
    .ok (List.zipWith (fun (lr : List ℤ) (pr : List ℝ) =>
      List.zipWith (fun (l : ℤ) (p : ℝ) =>
        -((l : ℝ) * Real.log (p + small_value) +
          (1 - (l : ℝ)) * Real.log (1 - p + small_value))) lr pr) labels pred1)

/-- The LossFunction enum. -/
inductive LossFunction where
  | CROSS_ENTROPY
  | SQUARED
deriving DecidableEq

/-- The string value of each enum member. -/
def LossFunction.value : LossFunction → String
  | .CROSS_ENTROPY => "cross_entropy"
  | .SQUARED => "squared"

/-- Translated from string_to_loss_function. -/
def string_to_loss_function (string : String) : Except Err LossFunction :=
  if string = LossFunction.CROSS_ENTROPY.value then .ok .CROSS_ENTROPY
  else if string = LossFunction.SQUARED.value then .ok .SQUARED
  else .error .unrecognizedLoss

/-- A label array handed to get_loss: 1-D integer class ids for
single-label data, or a 2-D multi-hot array for multi-label data. -/
inductive Labels where
  | l1 : List ℤ → Labels
  | l2 : List (List ℤ) → Labels

/-- A loss array returned by get_loss: 1-D or 2-D. -/
inductive Arr where
  | a1 : List ℝ → Arr
  | a2 : List (List ℝ) → Arr

/-- The loss_function argument of get_loss: an enum member, a string, or
a caller-supplied callable on (labels, predictions). -/
inductive Selector where
  | enum : LossFunction → Selector
  | str : String → Selector
  | func : (Labels → Pred → Except Err Arr) → Selector

/-- Dispatch of get_loss once the selector is a known enum member
(lines 182-189 of the source).  The rank of the label and prediction
arrays must fit the chosen loss function; on any other combination numpy
raises from inside the loss function (modelled as Err.incompatibleArray).
get_loss calls log_loss and multilabel_bce_loss with their default
small_value of 1e-8. -/
noncomputable def known_loss (k : LossFunction) (lab : Labels)
    (predictions : Pred) (using_logits : Bool) (multilabel : Bool) :
    Except Err Arr :=
  match k with
  | .CROSS_ENTROPY =>
    if multilabel then
      match lab, predictions with
      | .l2 ls, .mat m =>
        (multilabel_bce_loss ls m using_logits (1 / 10 ^ 8)).map Arr.a2
      | _, _ => .error .incompatibleArray
    else
      match lab with
      | .l1 ls => (log_loss ls predictions using_logits (1 / 10 ^ 8)).map Arr.a1
      | .l2 _ => .error .incompatibleArray
  | .SQUARED =>
    match lab, predictions with
    | .l1 ls, .vec v =>
      (squared_loss (ls.map fun z => (z : ℝ)) v).map Arr.a1
    | _, _ => .error .incompatibleArray

/-- The selector-resolution and dispatch tail of get_loss
(lines 180-191): a string selector is resolved through
string_to_loss_function (propagating its failure), an enum member is
dispatched, and anything else is invoked as a callable. -/
noncomputable def dispatch_loss (loss_function : Selector) (lab : Labels)
    (predictions : Pred) (using_logits : Bool) (multilabel : Bool) :
    Except Err Arr :=
  match loss_function with
  | .str s =>
    match string_to_loss_function s with
    | .error e => .error e
    | .ok k => known_loss k lab predictions using_logits multilabel
  | .enum k => known_loss k lab predictions using_logits multilabel
  | .func f => f lab predictions

/-- The loss resolver, translated from get_loss.  The two optional
boolean flags are used by python only for their truthiness, under which
None behaves as False; this is Option.getD false. -/
noncomputable def get_loss (loss : Option Arr) (labels : Option Labels)
    (logits : Option Pred) (probs : Option Pred) (loss_function : Selector)
    (loss_function_using_logits : Option Bool) (multilabel_data : Option Bool) :
    Except Err (Option Arr) :=
  match loss with
  | some l => .ok (some l)
  | none =>
    match labels with
    | none => .ok none
    | some lab =>
      if logits.isNone ∧ probs.isNone then .ok none
      else if loss_function_using_logits.getD false = true ∧ logits.isNone then
        .error .missingInput
      else if loss_function_using_logits.getD false = false ∧ probs.isNone then
        .error .missingInput
      else
        let predictions :=
          if loss_function_using_logits.getD false then logits.getD (Pred.vec [])
          else probs.getD (Pred.vec [])
        (dispatch_loss loss_function lab predictions
          (loss_function_using_logits.getD false)
          (multilabel_data.getD false)).map some

lemma expit_pos (x : ℝ) : 0 < expit x := by
  unfold expit
  have h := Real.exp_pos (-x)
  positivity

lemma expit_lt_one (x : ℝ) : expit x < 1 := by
  unfold expit
  have h := Real.exp_pos (-x)
  rw [div_lt_one (by positivity)]
  linarith

lemma foldl_min_mem (a : ℤ) (as : List ℤ) : as.foldl min a ∈ a :: as := by
  induction as generalizing a with
  | nil => simp
  | cons b bs ih =>
    have h := ih (min a b)
    simp only [List.foldl_cons]
    rcases List.mem_cons.mp h with h1 | h1
    · rcases min_choice a b with hm | hm
      · rw [h1, hm]; exact List.mem_cons_self _ _
      · rw [h1, hm]; exact List.mem_cons_of_mem _ (List.mem_cons_self _ _)
    · exact List.mem_cons_of_mem _ (List.mem_cons_of_mem _ h1)

lemma foldl_max_mem (a : ℤ) (as : List ℤ) : as.foldl max a ∈ a :: as := by
  induction as generalizing a with
  | nil => simp
  | cons b bs ih =>
    have h := ih (max a b)
    simp only [List.foldl_cons]
    rcases List.mem_cons.mp h with h1 | h1
    · rcases max_choice a b with hm | hm
      · rw [h1, hm]; exact List.mem_cons_self _ _
      · rw [h1, hm]; exact List.mem_cons_of_mem _ (List.mem_cons_self _ _)
    · exact List.mem_cons_of_mem _ (List.mem_cons_of_mem _ h1)

lemma foldl_min_le (a : ℤ) (as : List ℤ) : ∀ x ∈ a :: as, as.foldl min a ≤ x := by
  induction as generalizing a with
  | nil =>
    intro x hx
    simp only [List.mem_singleton] at hx
    simp [hx]
  | cons b bs ih =>
    intro x hx
    simp only [List.foldl_cons]
    have h := ih (min a b)
    rcases List.mem_cons.mp hx with h1 | h1
    · exact le_trans (h (min a b) (List.mem_cons_self _ _))
        (by rw [h1]; exact min_le_left a b)
    · rcases List.mem_cons.mp h1 with h2 | h2
      · exact le_trans (h (min a b) (List.mem_cons_self _ _))
          (by rw [h2]; exact min_le_right a b)
      · exact h x (List.mem_cons_of_mem _ h2)

lemma le_foldl_max (a : ℤ) (as : List ℤ) : ∀ x ∈ a :: as, x ≤ as.foldl max a := by
  induction as generalizing a with
  | nil =>
    intro x hx
    simp only [List.mem_singleton] at hx
    simp [hx]
  | cons b bs ih =>
    intro x hx
    simp only [List.foldl_cons]
    have h := ih (max a b)
    rcases List.mem_cons.mp hx with h1 | h1
    · exact le_trans (by rw [h1]; exact le_max_left a b)
        (h (max a b) (List.mem_cons_self _ _))
    · rcases List.mem_cons.mp h1 with h2 | h2
      · exact le_trans (by rw [h2]; exact le_max_right a b)
          (h (max a b) (List.mem_cons_self _ _))
      · exact h x (List.mem_cons_of_mem _ h2)

lemma except_map_some_eq_ok_none_iff (r : Except Err Arr) :
    (r.map some = Except.ok (none : Option Arr)) ↔ False := by
  cases r <;> simp [Except.map]

/-- C1: whenever a precomputed loss array is supplied, get_loss returns
exactly that array, unchanged, whatever the other arguments are, and no
error is raised. -/
theorem get_loss_precomputed (l : Arr) (labels : Option Labels)
    (logits : Option Pred) (probs : Option Pred) (sel : Selector)
    (fl : Option Bool) (ml : Option Bool) :
    get_loss (some l) labels logits probs sel fl ml = .ok (some l) := rfl

/-- C2: with the precomputed loss absent, get_loss returns the absent
marker exactly when labels are absent or both logits and probs are
absent, and in that case no error is raised. -/
theorem get_loss_absent_iff (labels : Option Labels) (logits : Option Pred)
    (probs : Option Pred) (sel : Selector) (fl : Option Bool) (ml : Option Bool) :
    get_loss none labels logits probs sel fl ml = .ok none ↔
      labels = none ∨ (logits = none ∧ probs = none) := by
  cases labels with
  | none => simp [get_loss]
  | some lab =>
    simp only [get_loss]
    by_cases hp : logits.isNone ∧ probs.isNone
    · rw [if_pos hp]
      simp only [Option.isNone_iff_eq_none] at hp
      simp [hp]
    · rw [if_neg hp]
      have hlp : ¬ (logits = none ∧ probs = none) := by
        simpa [Option.isNone_iff_eq_none] using hp
      constructor
      · intro h
        exfalso
        split_ifs at h <;>
          first
          | exact Except.noConfusion h
          | exact (except_map_some_eq_ok_none_iff _).mp h
      · intro h
        rcases h with h | h
        · exact absurd h (Option.some_ne_none lab)
        · exact absurd h hlp

/-- Witness for C2: with no labels, the resolver returns the absent
marker. -/
theorem get_loss_absent_iff_witness :
    get_loss none none none none (Selector.str "squared") none none =
      Except.ok none :=
  (get_loss_absent_iff none none none (Selector.str "squared") none none).mpr
    (Or.inl rfl)

/-- C6: with loss absent, labels present and one prediction array
present, get_loss fails with the missing-input error when the
loss_function_using_logits flag asks for the absent array, whatever the
selector and the multilabel flag are, before any selector resolution. -/
theorem get_loss_missing_input (lab : Labels) (p : Pred) (sel : Selector)
    (ml : Option Bool) :
    get_loss none (some lab) none (some p) sel (some true) ml =
      .error .missingInput ∧
    get_loss none (some lab) (some p) none sel (some false) ml =
      .error .missingInput :=
  ⟨rfl, rfl⟩

/-- C3: on the binary path of log_loss (prediction effectively 1-D,
matching leading dimension), a label outside the set 0, 1 causes the
label-domain error, and with every label in the set 0, 1 no label-domain
error is raised. -/
theorem log_loss_binary_label_domain (labels : List ℤ) (pred : Pred)
    (from_logits : Bool) (small_value : ℝ)
    (hshape : labels.length = pred.shape0) (hsize : pred.size = pred.shape0) :
    ((∃ l ∈ labels, l ≠ 0 ∧ l ≠ 1) →
      log_loss labels pred from_logits small_value = .error .labelDomain) ∧
    ((∀ l ∈ labels, l = 0 ∨ l = 1) →
      log_loss labels pred from_logits small_value ≠ .error .labelDomain) := by
  unfold log_loss
  rw [if_neg (not_not_intro hshape), if_pos hsize]
  cases labels with
  | nil =>
    constructor
    · rintro ⟨l, hl, _⟩
      simp at hl
    · intro _ h
      exact absurd (Except.error.inj h) (by decide)
  | cons a as =>
    constructor
    · rintro ⟨l, hl, h0, h1⟩
      have hbad : l < 0 ∨ 1 < l := by omega
      have hcond : as.foldl min a < 0 ∨ 1 < as.foldl max a := by
        rcases hbad with h | h
        · exact Or.inl (lt_of_le_of_lt (foldl_min_le a as l hl) h)
        · exact Or.inr (lt_of_lt_of_le h (le_foldl_max a as l hl))
      exact if_pos hcond
    · intro hall
      have hmn : 0 ≤ as.foldl min a := by
        rcases hall _ (foldl_min_mem a as) with h | h <;> omega
      have hmx : as.foldl max a ≤ 1 := by
        rcases hall _ (foldl_max_mem a as) with h | h <;> omega
      have hcond : ¬ (as.foldl min a < 0 ∨ 1 < as.foldl max a) := by
        push_neg
        omega
      intro h
      exact Except.noConfusion ((if_neg hcond).symm.trans h)

/-- Witness for C3: the out-of-domain label 2 with a scalar-per-example
prediction triggers the label-domain error. -/
theorem log_loss_binary_label_domain_witness :
    log_loss [2] (Pred.vec [1 / 2]) false (1 / 10 ^ 8) =
      .error .labelDomain :=
  (log_loss_binary_label_domain [2] (Pred.vec [1 / 2]) false (1 / 10 ^ 8)
      rfl rfl).1
    ⟨2, by simp, by decide, by decide⟩

/-- C8: with three labels and four predictions, log_loss, squared_loss
and multilabel_bce_loss all fail with the shape-mismatch failure rather
than returning a result. -/
theorem shape_mismatch_three_four (labels : List ℤ) (y_true : List ℝ)
    (mlabels : List (List ℤ)) (pred : List ℝ) (mpred : List (List ℝ))
    (from_logits : Bool) (small_value : ℝ)
    (h1 : labels.length = 3) (h2 : pred.length = 4) (h3 : y_true.length = 3)
    (h4 : mlabels.length = 3) (h5 : mpred.length = 4) :
    log_loss labels (Pred.vec pred) from_logits small_value =
      .error .shapeMismatch ∧
    squared_loss y_true pred = .error .shapeMismatch ∧
    multilabel_bce_loss mlabels mpred from_logits small_value =
      .error .shapeMismatch := by
  refine ⟨?_, ?_, ?_⟩
  · unfold log_loss
    rw [if_pos (by simp only [Pred.shape0_vec]; omega)]
  · unfold squared_loss
    rw [if_neg (by omega), if_neg (by omega), if_neg (by omega)]
  · unfold multilabel_bce_loss
    rw [if_pos (by omega)]

/-- Witness for C8: concrete arrays of lengths 3 and 4. -/
theorem shape_mismatch_three_four_witness :
    log_loss [0, 0, 0] (Pred.vec [0, 0, 0, 0]) false (1 / 10 ^ 8) =
      .error .shapeMismatch ∧
    squared_loss [0, 0, 0] [0, 0, 0, 0] = .error .shapeMismatch ∧
    multilabel_bce_loss [[0], [0], [0]] [[0], [0], [0], [0]] false
      (1 / 10 ^ 8) = .error .shapeMismatch :=
  shape_mismatch_three_four [0, 0, 0] [0, 0, 0] [[0], [0], [0]]
    [0, 0, 0, 0] [[0], [0], [0], [0]] false (1 / 10 ^ 8) rfl rfl rfl rfl rfl

/-- C10: on an empty input of agreeing shapes, log_loss fails with the
empty-reduction error coming from taking the minimum of the empty set of
distinct label values, rather than returning an empty loss array. -/
theorem log_loss_empty (pred : Pred) (from_logits : Bool) (small_value : ℝ)
    (h : pred.shape0 = 0) :
    log_loss [] pred from_logits small_value = .error .emptyReduction := by
  unfold log_loss
  have hsize : pred.size = pred.shape0 := by
    cases pred with
    | vec v => rfl
    | mat m =>
      have hm : m = [] := List.length_eq_zero.mp h
      subst hm; rfl
  rw [if_neg (by simp [h]), if_pos hsize]

/-- Witness for C10: the empty label and prediction arrays. -/
theorem log_loss_empty_witness :
    log_loss [] (Pred.vec []) false (1 / 10 ^ 8) = .error .emptyReduction :=
  log_loss_empty (Pred.vec []) false (1 / 10 ^ 8) rfl

/-- C7: the string lookup maps cross_entropy to CROSS_ENTROPY and squared
to SQUARED, so every enum member's canonical string round-trips, and it
fails with the unrecognized-value error on every other string, with no
fuzzy or case-insensitive matching. -/
theorem string_to_loss_function_round_trip :
    string_to_loss_function "cross_entropy" = .ok LossFunction.CROSS_ENTROPY ∧
    string_to_loss_function "squared" = .ok LossFunction.SQUARED ∧
    (∀ k : LossFunction, string_to_loss_function k.value = .ok k) ∧
    ∀ s : String, s ≠ "cross_entropy" → s ≠ "squared" →
      string_to_loss_function s = .error .unrecognizedLoss := by
  refine ⟨rfl, rfl, ?_, ?_⟩
  · intro k; cases k <;> rfl
  · intro s h1 h2
    simp only [string_to_loss_function, LossFunction.value]
    rw [if_neg h1, if_neg h2]

/-- Witness for C7: the capitalised spelling is rejected, there is no
case-insensitive matching. -/
theorem string_to_loss_function_round_trip_witness :
    string_to_loss_function "Squared" = .error .unrecognizedLoss :=
  string_to_loss_function_round_trip.2.2.2 "Squared"
    (by decide) (by decide)

lemma zipWith_mem_imp {α β γ : Type} (f : α → β → γ) :
    ∀ (l1 : List α) (l2 : List β) (c : γ), c ∈ List.zipWith f l1 l2 →
      ∃ a ∈ l1, ∃ b ∈ l2, c = f a b := by
  intro l1
  induction l1 with
  | nil =>
    intro l2 c hc
    simp at hc
  | cons a as ih =>
    intro l2 c hc
    cases l2 with
    | nil => simp at hc
    | cons b bs =>
      simp only [List.zipWith_cons_cons, List.mem_cons] at hc
      rcases hc with hc | hc
      · exact ⟨a, List.mem_cons_self _ _, b, List.mem_cons_self _ _, hc⟩
      · obtain ⟨x, hx, y, hy, hcc⟩ := ih bs c hc
        exact ⟨x, List.mem_cons_of_mem _ hx, y, List.mem_cons_of_mem _ hy, hcc⟩

lemma zipWith_zipWith_map (g : ℤ → ℝ → ℝ) (f : ℝ → ℝ) :
    ∀ (ls : List (List ℤ)) (ps : List (List ℝ)),
      List.zipWith (fun lr pr => List.zipWith g lr pr) ls
          (ps.map (List.map f)) =
        List.zipWith (fun lr pr =>
          List.zipWith (fun l p => g l (f p)) lr pr) ls ps := by
  intro ls
  induction ls with
  | nil => intro ps; simp
  | cons lr ls ih =>
    intro ps
    cases ps with
    | nil => simp
    | cons pr ps =>
      simp only [List.map_cons, List.zipWith_cons_cons, ih]
      rw [List.zipWith_map_right]

/-- C4: on a valid nonempty binary input, log_loss succeeds and the i-th
output is -log(max(q_i, small_value)) with q_i the probability assigned
to the true class (pred through the sigmoid first when from_logits), and
every output entry lies between 0 and -log(small_value). -/
theorem log_loss_binary_valid (labels : List ℤ) (pred : List ℝ)
    (from_logits : Bool) (small_value : ℝ) (hne : labels ≠ [])
    (hlen : labels.length = pred.length)
    (hlab : ∀ l ∈ labels, l = 0 ∨ l = 1)
    (hprob : from_logits = false → ∀ p ∈ pred, 0 ≤ p ∧ p ≤ 1)
    (hsv0 : 0 < small_value) (hsv1 : small_value ≤ 1) :
    log_loss labels (Pred.vec pred) from_logits small_value =
      .ok ((labels.zip (if from_logits then pred.map expit else pred)).map
        fun lp =>
          -Real.log (max (if lp.1 = 1 then lp.2 else 1 - lp.2) small_value)) ∧
    ∀ x ∈ (labels.zip (if from_logits then pred.map expit else pred)).map
        (fun lp =>
          -Real.log (max (if lp.1 = 1 then lp.2 else 1 - lp.2) small_value)),
      0 ≤ x ∧ x ≤ -Real.log small_value := by
  constructor
  · cases labels with
    | nil => exact absurd rfl hne
    | cons a as =>
      have hmn : 0 ≤ as.foldl min a := by
        rcases hlab _ (foldl_min_mem a as) with h | h <;> omega
      have hmx : as.foldl max a ≤ 1 := by
        rcases hlab _ (foldl_max_mem a as) with h | h <;> omega
      have hcond : ¬ (as.foldl min a < 0 ∨ 1 < as.foldl max a) := by
        push_neg
        omega
      have key : log_loss (a :: as) (Pred.vec pred) from_logits small_value =
          .ok (((a :: as).zip
              (if from_logits then pred.map expit else pred)).map
            fun lp =>
              -Real.log (max (if lp.1 = 0 then 1 - lp.2 else lp.2)
                small_value)) := by
        unfold log_loss
        have hsz : (Pred.vec pred).size = (Pred.vec pred).shape0 := rfl
        rw [if_neg (not_not_intro (by simpa using hlen)), if_pos hsz]
        exact if_neg hcond
      rw [key]
      congr 1
      refine List.map_congr_left ?_
      rintro ⟨l, p⟩ hmem
      rcases hlab l (List.of_mem_zip hmem).1 with h0 | h1
      · subst h0; norm_num
      · subst h1; norm_num
  · intro x hx
    rw [List.mem_map] at hx
    obtain ⟨lp, hlp, rfl⟩ := hx
    obtain ⟨hl1, hl2⟩ := List.of_mem_zip hlp
    have hp : 0 ≤ lp.2 ∧ lp.2 ≤ 1 := by
      cases from_logits with
      | false =>
        simp only [Bool.false_eq_true, if_false] at hl2
        exact hprob rfl lp.2 hl2
      | true =>
        simp only [if_true] at hl2
        obtain ⟨t, ht, hte⟩ := List.mem_map.mp hl2
        rw [← hte]
        exact ⟨(expit_pos t).le, (expit_lt_one t).le⟩
    have hq : 0 ≤ (if lp.1 = 1 then lp.2 else 1 - lp.2) ∧
        (if lp.1 = 1 then lp.2 else 1 - lp.2) ≤ 1 := by
      split_ifs <;> constructor <;> linarith [hp.1, hp.2]
    constructor
    · have hle1 : max (if lp.1 = 1 then lp.2 else 1 - lp.2) small_value ≤ 1 :=
        max_le hq.2 hsv1
      have hpos : (0 : ℝ) ≤ max (if lp.1 = 1 then lp.2 else 1 - lp.2)
          small_value := le_trans hsv0.le (le_max_right _ _)
      have hlog := Real.log_nonpos hpos hle1
      linarith
    · have hlog := Real.log_le_log hsv0
        (le_max_right (if lp.1 = 1 then lp.2 else 1 - lp.2) small_value)
      linarith

/-- Witness for C4: a valid binary input evaluated through the theorem. -/
theorem log_loss_binary_valid_witness :
    log_loss [1] (Pred.vec [1 / 2]) false (1 / 2) =
      .ok [-Real.log (max (1 / 2) (1 / 2))] ∧
    (0 : ℝ) ≤ -Real.log (max (1 / 2 : ℝ) (1 / 2)) ∧
      -Real.log (max (1 / 2 : ℝ) (1 / 2)) ≤ -Real.log (1 / 2) := by
  have h := log_loss_binary_valid [1] [1 / 2] false (1 / 2) (by decide)
    (by decide) (by decide) (fun _ => by norm_num) (by norm_num) (by norm_num)
  constructor
  · rw [h.1]
    norm_num [List.zip]
  · exact h.2 (-Real.log (max (1 / 2 : ℝ) (1 / 2))) (by norm_num [List.zip])

/-- The per-entry formula the specification states for the multi-label
BCE loss: sigmoid first when from_logits, then the entry is
-(l * log(p + eps) + (1 - l) * log(1 - p + eps)), with no summation
across classes. -/
noncomputable def bce_spec_formula (labels : List (List ℤ))
    (pred : List (List ℝ)) (from_logits : Bool) (small_value : ℝ) :
    List (List ℝ) :=
  List.zipWith (fun (lr : List ℤ) (pr : List ℝ) =>
    List.zipWith (fun (l : ℤ) (p : ℝ) =>
      -((l : ℝ) *
          Real.log ((if from_logits then expit p else p) + small_value) +
        (1 - (l : ℝ)) *
          Real.log (1 - (if from_logits then expit p else p) + small_value)))
      lr pr) labels pred

/-- C5: on a valid N x C input, multilabel_bce_loss succeeds, the output
is the entrywise specification formula, and it has shape N x C with no
summation across classes. -/
theorem multilabel_bce_loss_valid (labels : List (List ℤ))
    (pred : List (List ℝ)) (from_logits : Bool) (small_value : ℝ) (C : ℕ)
    (hlen : labels.length = pred.length)
    (hlc : ∀ r ∈ labels, r.length = C) (hpc : ∀ r ∈ pred, r.length = C)
    (hlab : ∀ r ∈ labels, ∀ l ∈ r, l = 0 ∨ l = 1)
    (hprob : from_logits = false → ∀ r ∈ pred, ∀ p ∈ r, 0 ≤ p ∧ p ≤ 1) :
    multilabel_bce_loss labels pred from_logits small_value =
      .ok (bce_spec_formula labels pred from_logits small_value) ∧
    (bce_spec_formula labels pred from_logits small_value).length =
      labels.length ∧
    ∀ r ∈ bce_spec_formula labels pred from_logits small_value,
      r.length = C := by
  have hrange : ¬ (from_logits = false ∧
      ∃ r ∈ pred, ∃ p ∈ r, p < 0 ∨ 1 < p) := by
    rintro ⟨hf, r, hr, p, hp, hbad⟩
    have hb := hprob hf r hr p hp
    rcases hbad with h | h <;> linarith [hb.1, hb.2]
  have hcode : multilabel_bce_loss labels pred from_logits small_value =
      .ok (List.zipWith (fun (lr : List ℤ) (pr : List ℝ) =>
        List.zipWith (fun (l : ℤ) (p : ℝ) =>
          -((l : ℝ) * Real.log (p + small_value) +
            (1 - (l : ℝ)) * Real.log (1 - p + small_value))) lr pr)
        labels (if from_logits then pred.map (List.map expit) else pred)) := by
    unfold multilabel_bce_loss
    rw [if_neg (not_not_intro hlen), if_neg (not_not_intro hlab),
      if_neg hrange]
  refine ⟨?_, ?_, ?_⟩
  · rw [hcode]
    cases from_logits with
    | false => simp [bce_spec_formula]
    | true =>
      simp only [if_true, bce_spec_formula]
      exact congrArg Except.ok (zipWith_zipWith_map _ expit labels pred)
  · simp only [bce_spec_formula]
    rw [List.length_zipWith, hlen, min_self]
  · intro r hr
    simp only [bce_spec_formula] at hr
    obtain ⟨lr, hlr, pr, hpr, hrr⟩ := zipWith_mem_imp _ labels pred r hr
    subst hrr
    rw [List.length_zipWith, hlc lr hlr, hpc pr hpr, min_self]

/-- Witness for C5: the specification scenario with probabilities
0.9, 0.2, 0.3, 0.8, checked elementwise against the explicit formula. -/
theorem multilabel_bce_loss_valid_witness :
    multilabel_bce_loss [[1, 0], [0, 1]]
        [[9 / 10, 2 / 10], [3 / 10, 8 / 10]] false (1 / 10 ^ 8) =
      .ok [[-Real.log (9 / 10 + 1 / 10 ^ 8),
            -Real.log (1 - 2 / 10 + 1 / 10 ^ 8)],
           [-Real.log (1 - 3 / 10 + 1 / 10 ^ 8),
            -Real.log (8 / 10 + 1 / 10 ^ 8)]] := by
  have h := multilabel_bce_loss_valid [[1, 0], [0, 1]]
    [[9 / 10, 2 / 10], [3 / 10, 8 / 10]] false (1 / 10 ^ 8) 2 rfl
    (by decide) (by norm_num) (by decide) (fun _ => by norm_num)
  rw [h.1]
  norm_num [bce_spec_formula, List.zipWith]

/-- C9: a valid multilabel input (label 1 with probability 1) on which an
output entry of multilabel_bce_loss is strictly negative, because the
floor is added inside the logarithm instead of clamping the
probability. -/
theorem multilabel_bce_loss_negative_entry :
    multilabel_bce_loss [[1]] [[1]] false (1 / 10 ^ 8) =
      .ok [[-Real.log (1 + 1 / 10 ^ 8)]] ∧
    -Real.log (1 + 1 / 10 ^ 8) < 0 := by
  constructor
  · unfold multilabel_bce_loss
    rw [if_neg (by norm_num), if_neg (by decide), if_neg (by norm_num)]
    norm_num [List.zipWith]
  · have h : 0 < Real.log (1 + 1 / 10 ^ 8) := Real.log_pos (by norm_num)
    linarith

end TfPrivacy
